import Mathlib

/-!
Verification development for the GRR configuration manager
(`src/lib/config_lib.py` of billstackpole/grr).

The Python code is shallowly embedded: mappings become functions into
`Option`, fallible operations return `Except`, and the recursive lexer of
`StringInterpolator` becomes a fuel-indexed step function over the character
list of the input.  Raw-data layers, `EscapeString`, `Set`, `MergeData`,
`_GetValue`, `Get`, the `file` filter and the interpolation language are
translated from the source; collaborators of the module that live outside
`src/` (the generic lexer engine `grr.lib.lexer.Lexer`, and the external
type-descriptor library `grr.lib.type_info`) are modelled from the spec, as
noted on the relevant definitions.
-/

namespace Grr

/-- Models Python `str.startswith`: `hasPre p s` is true when `p` is a
prefix of `s` (used for the `@` and `__` key sentinels). -/
def hasPre (p s : String) : Bool := p.data.isPrefixOf s.data

/-- Models Python `"." in name`. -/
def hasDot (name : String) : Bool := name.data.contains '.'

/-- Models Python `str.lower()` (ASCII case folding on the character list). -/
def lowerStr (s : String) : String := String.mk (s.data.map Char.toLower)

/-- Translates `GrrConfigManager._GetSectionName` (config_lib.py 485-491):
`name.split(".", 1)` giving section and key; `none` where the Python code
raises `RuntimeError("Section not specified")` because the name has no dot. -/
def splitName (name : String) : Option (String × String) :=
  match name.data.dropWhile (fun c => c ≠ '.') with
  | '.' :: rest => some (String.mk (name.data.takeWhile (fun c => c ≠ '.')), String.mk rest)
  | _ => none

/-- Translates the qualification step of `StringInterpolator.ExpandArg`
(config_lib.py 330-331): a parameter name without a dot is prefixed with the
default section. -/
def qualifyName (defaultSection p : String) : String :=
  if hasDot p then p else defaultSection ++ "." ++ p

/-- One character of `GrrConfigManager.EscapeString` (config_lib.py 473-475):
`re.sub(r"([\\%){}])", r"\\\1", string)` prefixes a backslash to each
character of the class `\ % ) { }`.  Note that `(` is not in the class. -/
def escChar (c : Char) : List Char :=
  if c = '\\' ∨ c = '%' ∨ c = ')' ∨ c = '{' ∨ c = '}' then ['\\', c] else [c]

/-- Character-list form of `EscapeString` (the regex substitution acts on
each character independently). -/
def escList : List Char → List Char
  | [] => []
  | c :: t => escChar c ++ escList t

/-- Translates `GrrConfigManager.EscapeString` (config_lib.py 473-475). -/
def EscapeString (s : String) : String := String.mk (escList s.data)

/-- The three lookup layers of `GrrConfigManager` used by `_GetValue`:
`raw_data`, `environment` (its nested section view) and `defaults`.  Python
dictionaries become functions into `Option String`; a stored `None` and an
absent key are conflated, exactly as `dict.get` conflates them in the
source. -/
structure Layers where
  raw : String → String → Option String
  env : String → String → Option String
  defaults : String → String → Option String

/-- Translates `GrrConfigManager._GetValue` (config_lib.py 671-690); the
recursion through `@inherit_from_section` is made total with a fuel
parameter that models the Python call stack (the source has no cycle
guard). -/
def getValue (L : Layers) : Nat → String → String → Option String
  | 0, _, _ => none
  | fuel + 1, s, k =>
    match L.raw s k with
    | some v => some v
    | none =>
      match L.env s k with
      | some v => some v
      | none =>
        match L.defaults s k with
        | some v => some v
        | none =>
          if hasPre "@" k then none
          else
            match getValue L fuel s "@inherit_from_section" with
            | some sec => getValue L fuel sec k
            | none => none

/-- The mutable `raw_data` mapping of `GrrConfigManager`, section → key →
stored string. -/
structure RawState where
  raw : String → String → Option String

/-- Pointwise update of a raw-data mapping: `section_data[key] = v`
(`v = none` models `section_data.pop(key, None)`). -/
def updRaw (m : String → String → Option String) (sec key : String)
    (v : Option String) : String → String → Option String :=
  fun s k => if s = sec ∧ k = key then v else m s k

inductive SetErr
  | noSection
  | envSection
  | invalidValue
deriving DecidableEq

/-- Translates `GrrConfigManager.Set` (config_lib.py 448-471).
`ts` and `val` model `type_info_obj.ToString` and `type_info_obj.Validate`.
Modelled from the spec: `grr.lib.type_info` is not under `src/`; per the
spec the descriptor library exposes a total `ToString` string codec and a
`Validate` check, so they are passed in as parameters.  The branch for
`value = none` mirrors the source exactly: the key is popped and then -
because the Python code has no `return` after the pop - control falls
through to the unconditional `section_data[key] = EscapeString(ToString(value))`. -/
def setCfg {V : Type} (ts : Option V → String) (val : V → Bool)
    (st : RawState) (name : String) (value : Option V) (verify : Bool) :
    Except SetErr RawState :=
  match splitName name with
  | none => Except.error SetErr.noSection
  | some sk =>
    if lowerStr sk.1 = "environment" then Except.error SetErr.envSection
    else
      match value with
      | none =>
        let popped := updRaw st.raw sk.1 sk.2 none
        Except.ok ⟨updRaw popped sk.1 sk.2 (some (EscapeString (ts none)))⟩
      | some v =>
        if verify && !(val v) then Except.error SetErr.invalidValue
        else Except.ok ⟨updRaw st.raw sk.1 sk.2 (some (EscapeString (ts (some v))))⟩

/-- A raw-data mapping as a function, for the merge semantics. -/
abbrev RawMap := String → String → Option String

/-- The inner loop of `GrrConfigManager.MergeData` (config_lib.py 520-521):
every key of the incoming section overwrites the accumulated mapping. -/
def mergeOne (m : RawMap) (sec : String) (items : List (String × String)) : RawMap :=
  items.foldl (fun acc kv => updRaw acc sec kv.1 (some kv.2)) m

/-- Translates `GrrConfigManager.MergeData` (config_lib.py 515-521): the
incoming raw data (an ordered section → ordered key/value association) is
folded into the existing raw data per section and per key;
`setdefault(section, OrderedDict())` never replaces an existing section. -/
def MergeData (m : RawMap) (incoming : List (String × List (String × String))) : RawMap :=
  incoming.foldl (fun acc sd => mergeOne acc sd.1 sd.2) m

/-- The last value the incoming data binds to `(s, k)`, in iteration order;
`none` when the incoming data never binds that section and key. -/
def lastBinding (incoming : List (String × List (String × String)))
    (s k : String) : Option String :=
  incoming.foldl
    (fun acc sd =>
      sd.2.foldl (fun a kv => if s = sd.1 ∧ k = kv.1 then some kv.2 else a) acc)
    none

/-- Translates `Filename.Filter` (config_lib.py 90-97):
`open(data, "rb").read(1024000)` returns the first 1,024,000 bytes of the
file, and an `IOError` is re-raised as `FilterError`.  The filesystem is
modelled as a function from path to optional content (`none` = I/O error). -/
def fileFilter {α : Type} (fs : String → Option (List α)) (data : String) :
    Except Unit (List α) :=
  match fs data with
  | none => Except.error ()
  | some content => Except.ok (content.take 1024000)

inductive GetErr
  | missingSection
  | interpError
  | invalidValue
deriving DecidableEq

/-- State and collaborators of `GrrConfigManager.Get` (config_lib.py 624-669).
`envFlat` is the flat view of `self.environment` used by the
`name in self.environment` test; `layers` feeds `_GetValue`; `interpolate`
models `NewlineFixup` + `InterpolateValue` + `FromString` for the raw value
(modelled from the spec where it calls the external type-descriptor
library); `validate` models `type_info_obj.Validate`. -/
structure GetModel (V : Type) where
  envFlat : String → Option V
  layers : Layers
  fuel : Nat
  interpolate : String → Option String → Except GetErr V
  validate : String → String → V → Bool

/-- Translates `GrrConfigManager.Get` (config_lib.py 624-669): with
`environ` set and the full name present in the environment the stored value
is returned directly; otherwise the name is split, the raw value looked up
through the layers, interpolated and parsed, and (when `verify` is set and
the key is not a `__` key) validated. -/
def getCfg {V : Type} (G : GetModel V) (name : String) (verify environ : Bool) :
    Except GetErr V :=
  match environ, G.envFlat name with
  | true, some v => Except.ok v
  | _, _ =>
    match splitName name with
    | none => Except.error GetErr.missingSection
    | some sk =>
      match G.interpolate name (getValue G.layers G.fuel sk.1 sk.2) with
      | Except.error e => Except.error e
      | Except.ok v =>
        if verify && !(hasPre "__" sk.2) && !(G.validate sk.1 sk.2 v) then
          Except.error GetErr.invalidValue
        else Except.ok v

/-! The string interpolation language of `StringInterpolator`
(config_lib.py 218-351). -/

/-- Lexer state: `INITIAL` or the `Literal` state of the token table. -/
inductive IMode
  | initial
  | literal
deriving DecidableEq

/-- The tokens of `StringInterpolator.tokens` (config_lib.py 244-269), with
the text each one matches: `litEsc` is token `("Literal", \\[^}],
AppendArg)`; `esc` is `\\(.)` with action `Escape`; `endLit` is
`("Literal", \}, EndLiteralExpression,PopState)`; `litGlob` is
`("Literal", [^}]+, AppendArg)`; `startLit` is `\%\{` with
`StartExpression,PushState`; `startExpr` is `\%\(`; `filterTok` is
`\|([a-zA-Z]+)\)` with action `Filter`; `closeExpr` is `\)` with action
`ExpandArg`; `glob` is `[^()%{}|\\]+`; `chr` is the catch-all `.`. -/
inductive Tok
  | litEsc (c : Char)
  | esc (c : Char)
  | endLit
  | litGlob (cs : List Char)
  | startLit
  | startExpr
  | filterTok (name : String)
  | closeExpr
  | glob (cs : List Char)
  | chr (c : Char)
deriving DecidableEq

/-- Abort conditions of an interpolator run.  The first three are the
`lexer.ParseError` conditions (`ExpandArg` with depth at most one,
`EndLiteralExpression` with depth at most one, `Parse` with more than one
leftover accumulator); `unknownFilter` is the `RuntimeError` of `Filter`;
`filterFailed` is a `FilterError` raised by a filter; `indexError` is
Python's `IndexError` from `self.stack[-1]` on an empty stack; `popFailed`
models `PopState` on an empty state stack. -/
inductive IErr
  | unbalancedParen
  | unbalancedLiteral
  | nestedNotBalanced
  | unknownFilter (name : String)
  | filterFailed
  | indexError
  | popFailed
deriving DecidableEq

/-- Characters matched by the efficiency glob `[^()%{}|\\]+` of the
`INITIAL` state. -/
def isSafeInit (c : Char) : Bool :=
  !(c = '(' || c = ')' || c = '%' || c = '{' || c = '}' || c = '|' || c = '\\')

/-- Matches the tail of the filter token `\|([a-zA-Z]+)\)` after the `|`: a
nonempty run of ASCII letters followed immediately by `)`. -/
def filterMatch (l : List Char) : Option (String × List Char) :=
  match l.dropWhile Char.isAlpha with
  | ')' :: rest =>
    if (l.takeWhile Char.isAlpha).isEmpty then none
    else some (String.mk (l.takeWhile Char.isAlpha), rest)
  | _ => none

/-- Modelled from the spec: the generic lexer engine (`grr.lib.lexer.Lexer`)
is not under `src/`; per the spec the evaluator is a recursive-descent
lexer, so tokens are matched at the start of the buffer and the first
matching token of the ordered list fires.  The token list itself, its
order, its state restrictions and the consumed texts are translated from
`StringInterpolator.tokens` (config_lib.py 244-269). -/
def lexTok (mode : IMode) (buf : List Char) : Option (Tok × List Char) :=
  match buf with
  | [] => none
  | c :: t =>
    match mode with
    | IMode.literal =>
      if c = '\\' then
        match t with
        | [] => some (Tok.litGlob ['\\'], [])
        | c2 :: t2 => if c2 = '}' then some (Tok.esc c2, t2) else some (Tok.litEsc c2, t2)
      else if c = '}' then some (Tok.endLit, t)
      else
        some (Tok.litGlob ((c :: t).takeWhile (fun x => x ≠ '}')),
              (c :: t).dropWhile (fun x => x ≠ '}'))
    | IMode.initial =>
      if c = '\\' then
        match t with
        | [] => some (Tok.chr '\\', [])
        | c2 :: t2 => some (Tok.esc c2, t2)
      else if c = '%' then
        match t with
        | '{' :: t2 => some (Tok.startLit, t2)
        | '(' :: t2 => some (Tok.startExpr, t2)
        | _ => some (Tok.chr '%', t)
      else if c = '|' then
        match filterMatch t with
        | some nr => some (Tok.filterTok nr.1, nr.2)
        | none => some (Tok.chr '|', t)
      else if c = ')' then some (Tok.closeExpr, t)
      else if isSafeInit c then
        some (Tok.glob ((c :: t).takeWhile isSafeInit), (c :: t).dropWhile isSafeInit)
      else some (Tok.chr c, t)

/-- Translates `STRING_ESCAPES` (config_lib.py 271-274) together with the
fallback of `Escape` (config_lib.py 283-286, drop the backslash): the
escaped characters `\`, `n`, `t`, `r` map to backslash, newline, tab and
carriage return; every other escaped character maps to itself. -/
def escTrans (c : Char) : Char :=
  if c = '\\' then '\\'
  else if c = 'n' then '\n'
  else if c = 't' then '\t'
  else if c = 'r' then '\r'
  else c

/-- Collaborators of `StringInterpolator`: `cfg` models
`self.config[parameter_name]` (`none` when the parameter is missing, which
the source replaces by the empty string); `render` models
`(self.config.FindTypeInfo(name) or type_info.String()).ToString(value)`
(modelled from the spec: the type-descriptor library is external to
`src/`); `filters` models the `ConfigFilter.classes_by_name` registry, a
filter failing with `FilterError`; `defaultSection` is the section of the
value under evaluation. -/
structure ICtx where
  cfg : String → Option String
  render : String → String → String
  filters : String → Option (String → Except Unit String)
  defaultSection : String

/-- Translates the filter loop of `StringInterpolator.Filter`
(config_lib.py 306-318): every name of the comma-separated list is looked
up (`RuntimeError` when unknown) and applied (`FilterError` on failure). -/
def applyFilters (ctx : ICtx) : List String → String → Except IErr String
  | [], arg => Except.ok arg
  | n :: ns, arg =>
    match ctx.filters n with
    | none => Except.error (IErr.unknownFilter n)
    | some f =>
      match f arg with
      | Except.error _ => Except.error IErr.filterFailed
      | Except.ok r => applyFilters ctx ns r

/-- Translates `Lexer.Close` driving the `StringInterpolator` actions
(config_lib.py 276-344): one token is consumed per step.  The accumulator
stack keeps its top element first (Python's `stack[-1]`), so Python's
`stack[0]` is the last element.  The fuel bounds the loop; every token
consumes at least one character, so fuel equal to the buffer length always
suffices and the fuel-exhausted case is unreachable from `InterpParse`. -/
def closeRun (ctx : ICtx) :
    Nat → IMode → List IMode → List (List Char) → List Char →
    Except IErr (List (List Char))
  | 0, _, _, st, _ => Except.ok st
  | fuel + 1, mode, ms, st, buf =>
    match lexTok mode buf with
    | none => Except.ok st
    | some (Tok.litEsc c, rest) =>
      match st with
      | [] => Except.error IErr.indexError
      | top :: s => closeRun ctx fuel mode ms ((top ++ ['\\', c]) :: s) rest
    | some (Tok.esc c, rest) =>
      match st with
      | [] => Except.error IErr.indexError
      | top :: s => closeRun ctx fuel mode ms ((top ++ [escTrans c]) :: s) rest
    | some (Tok.endLit, rest) =>
      match st with
      | top :: parent :: s =>
        match ms with
        | m :: ms2 => closeRun ctx fuel m ms2 ((parent ++ top) :: s) rest
        | [] => Except.error IErr.popFailed
      | _ => Except.error IErr.unbalancedLiteral
    | some (Tok.litGlob cs, rest) =>
      match st with
      | [] => Except.error IErr.indexError
      | top :: s => closeRun ctx fuel mode ms ((top ++ cs) :: s) rest
    | some (Tok.startLit, rest) =>
      closeRun ctx fuel IMode.literal (mode :: ms) ([] :: st) rest
    | some (Tok.startExpr, rest) =>
      closeRun ctx fuel mode ms ([] :: st) rest
    | some (Tok.filterTok name, rest) =>
      match st with
      | [] => Except.error IErr.indexError
      | top :: s =>
        match applyFilters ctx (name.splitOn ",") (String.mk top) with
        | Except.error e => Except.error e
        | Except.ok arg =>
          match s with
          | [] => Except.error IErr.indexError
          | parent :: s2 => closeRun ctx fuel mode ms ((parent ++ arg.data) :: s2) rest
    | some (Tok.closeExpr, rest) =>
      match st with
      | top :: parent :: s =>
        closeRun ctx fuel mode ms
          ((parent ++ (ctx.render (qualifyName ctx.defaultSection (String.mk top))
            ((ctx.cfg (qualifyName ctx.defaultSection (String.mk top))).getD "")).data) :: s)
          rest
      | _ => Except.error IErr.unbalancedParen
    | some (Tok.glob cs, rest) =>
      match st with
      | [] => Except.error IErr.indexError
      | top :: s => closeRun ctx fuel mode ms ((top ++ cs) :: s) rest
    | some (Tok.chr c, rest) =>
      match st with
      | [] => Except.error IErr.indexError
      | top :: s => closeRun ctx fuel mode ms ((top ++ [c]) :: s) rest

/-- Translates `StringInterpolator.Parse` (config_lib.py 346-351): run the
lexer to exhaustion, then demand exactly one accumulator on the stack and
return it (Python's `stack[0]`). -/
def InterpParse (ctx : ICtx) (s : String) : Except IErr String :=
  match closeRun ctx s.data.length IMode.initial [] [[]] s.data with
  | Except.error e => Except.error e
  | Except.ok [r] => Except.ok (String.mk r)
  | Except.ok _ => Except.error IErr.nestedNotBalanced

/-- The `lexer.ParseError` conditions of the interpolator: unbalanced `)`,
unbalanced literal `}`, or leftover accumulators at end of input.  These
are exactly the errors `Get` wraps into `ConfigFormatError`. -/
def isParseErrB : IErr → Bool
  | IErr.unbalancedParen => true
  | IErr.unbalancedLiteral => true
  | IErr.nestedNotBalanced => true
  | _ => false

def isLexParseErr : Except IErr String → Bool
  | Except.error e => isParseErrB e
  | Except.ok _ => false

/-- An interpolation context whose lookups all miss, whose rendering is the
identity string codec and whose filter registry is empty. -/
def plainCtx : ICtx := ⟨fun _ => none, fun _ v => v, fun _ => none, ""⟩

/-! Helper lemmas. -/

lemma closeRun_nil (ctx : ICtx) (fuel : Nat) (mode : IMode) (ms : List IMode)
    (st : List (List Char)) : closeRun ctx fuel mode ms st [] = Except.ok st := by
  cases fuel with
  | zero => rfl
  | succ n => rfl

lemma takeWhile_all_append {p : Char → Bool} (l : List Char) (x : Char) (t : List Char)
    (hl : ∀ c ∈ l, p c = true) (hx : p x = false) :
    (l ++ x :: t).takeWhile p = l ∧ (l ++ x :: t).dropWhile p = x :: t := by
  induction l with
  | nil => simp [List.takeWhile_cons, List.dropWhile_cons, hx]
  | cons c l ih =>
    have hc : p c = true := hl c (by simp)
    have ih2 := ih (fun c hm => hl c (by simp [hm]))
    simp [List.takeWhile_cons, List.dropWhile_cons, hc, ih2.1, ih2.2]

lemma escList_append (l1 l2 : List Char) :
    escList (l1 ++ l2) = escList l1 ++ escList l2 := by
  induction l1 with
  | nil => simp [escList]
  | cons c t ih => simp [escList, ih]

lemma lastIn_step (s k sec : String) (kv : String × String) (a : Option String) :
    (if s = sec ∧ k = kv.1 then some kv.2 else a)
      = match (if s = sec ∧ k = kv.1 then some kv.2 else none) with
        | some v => some v
        | none => a := by
  by_cases hc : s = sec ∧ k = kv.1 <;> simp [hc]

/-- A fold that only overwrites its accumulator factors through its run from
`none`. -/
lemma lastIn_override (s k sec : String) (items : List (String × String)) :
    ∀ acc : Option String,
      items.foldl (fun a kv => if s = sec ∧ k = kv.1 then some kv.2 else a) acc
        = match items.foldl (fun a kv => if s = sec ∧ k = kv.1 then some kv.2 else a) none with
          | some v => some v
          | none => acc := by
  induction items with
  | nil => intro acc; rfl
  | cons kv t ih =>
    intro acc
    simp only [List.foldl_cons]
    rw [ih, ih (if s = sec ∧ k = kv.1 then some kv.2 else none)]
    cases h : t.foldl (fun a kv => if s = sec ∧ k = kv.1 then some kv.2 else a) none with
    | some v => rfl
    | none => by_cases hc : s = sec ∧ k = kv.1 <;> simp [hc]

lemma mergeOne_apply (s k sec : String) (items : List (String × String)) :
    ∀ m : RawMap,
      mergeOne m sec items s k
        = match items.foldl (fun a kv => if s = sec ∧ k = kv.1 then some kv.2 else a) none with
          | some v => some v
          | none => m s k := by
  induction items with
  | nil => intro m; rfl
  | cons kv t ih =>
    intro m
    show mergeOne (updRaw m sec kv.1 (some kv.2)) sec t s k = _
    rw [ih]
    simp only [List.foldl_cons]
    rw [lastIn_override s k sec t (if s = sec ∧ k = kv.1 then some kv.2 else none)]
    cases h : t.foldl (fun a kv => if s = sec ∧ k = kv.1 then some kv.2 else a) none with
    | some v => rfl
    | none => by_cases hc : s = sec ∧ k = kv.1 <;> simp [hc, updRaw]

lemma lastBinding_override (s k : String) (t : List (String × List (String × String))) :
    ∀ acc : Option String,
      t.foldl (fun acc sd =>
          sd.2.foldl (fun a kv => if s = sd.1 ∧ k = kv.1 then some kv.2 else a) acc) acc
        = match t.foldl (fun acc sd =>
            sd.2.foldl (fun a kv => if s = sd.1 ∧ k = kv.1 then some kv.2 else a) acc) none with
          | some v => some v
          | none => acc := by
  induction t with
  | nil => intro acc; rfl
  | cons sd t ih =>
    intro acc
    simp only [List.foldl_cons]
    rw [ih, ih (sd.2.foldl (fun a kv => if s = sd.1 ∧ k = kv.1 then some kv.2 else a) none),
      lastIn_override s k sd.1 sd.2 acc]
    cases h : t.foldl (fun acc sd =>
        sd.2.foldl (fun a kv => if s = sd.1 ∧ k = kv.1 then some kv.2 else a) acc) none with
    | some v => rfl
    | none =>
      cases h2 : sd.2.foldl (fun a kv => if s = sd.1 ∧ k = kv.1 then some kv.2 else a) none with
      | some v => rfl
      | none => rfl

/-- The merge fold looks up to the last binding of the incoming data,
falling back to the previous raw data. -/
lemma mergeData_apply (s k : String) (inc : List (String × List (String × String))) :
    ∀ m : RawMap,
      MergeData m inc s k
        = match lastBinding inc s k with
          | some v => some v
          | none => m s k := by
  induction inc with
  | nil => intro m; rfl
  | cons sd t ih =>
    intro m
    have hexp : lastBinding (sd :: t) s k
        = match lastBinding t s k with
          | some v => some v
          | none => sd.2.foldl (fun a kv => if s = sd.1 ∧ k = kv.1 then some kv.2 else a) none := by
      simp only [lastBinding, List.foldl_cons]
      rw [lastBinding_override s k t
        (sd.2.foldl (fun a kv => if s = sd.1 ∧ k = kv.1 then some kv.2 else a) none)]
    show MergeData (mergeOne m sd.1 sd.2) t s k = _
    rw [ih, hexp, mergeOne_apply]
    cases h : lastBinding t s k with
    | some v => rfl
    | none => rfl

/-! Lemmas about the escaped alphabet produced by `EscapeString`. -/

lemma escChar_special {c : Char}
    (h : c = '\\' ∨ c = '%' ∨ c = ')' ∨ c = '{' ∨ c = '}') :
    escChar c = ['\\', c] := if_pos h

lemma escChar_nonspecial {c : Char}
    (h : ¬(c = '\\' ∨ c = '%' ∨ c = ')' ∨ c = '{' ∨ c = '}')) :
    escChar c = [c] := if_neg h

lemma specIsNotSafe {c : Char}
    (h : c = '\\' ∨ c = '%' ∨ c = ')' ∨ c = '{' ∨ c = '}') :
    isSafeInit c = false := by
  rcases h with h | h | h | h | h <;> subst h <;> decide

lemma safe_not_spec {c : Char} (h : isSafeInit c = true) :
    ¬(c = '\\' ∨ c = '%' ∨ c = ')' ∨ c = '{' ∨ c = '}') := by
  intro hs
  rw [specIsNotSafe hs] at h
  exact absurd h (by decide)

lemma escTrans_special {c : Char}
    (h : c = '\\' ∨ c = '%' ∨ c = ')' ∨ c = '{' ∨ c = '}') :
    escTrans c = c := by
  rcases h with h | h | h | h | h <;> subst h <;> decide

/-- Every character is escaped-special, `(`, `|`, or safe for the `INITIAL`
glob. -/
lemma char_cases (c : Char) :
    (c = '\\' ∨ c = '%' ∨ c = ')' ∨ c = '{' ∨ c = '}') ∨ c = '(' ∨ c = '|' ∨
      isSafeInit c = true := by
  by_cases hs : isSafeInit c = true
  · exact Or.inr (Or.inr (Or.inr hs))
  · have h7 : c = '(' ∨ c = ')' ∨ c = '%' ∨ c = '{' ∨ c = '}' ∨ c = '|' ∨ c = '\\' := by
      by_contra hno
      push_neg at hno
      apply hs
      simp [isSafeInit, hno.1, hno.2.1, hno.2.2.1, hno.2.2.2.1, hno.2.2.2.2.1,
        hno.2.2.2.2.2.1, hno.2.2.2.2.2.2]
    rcases h7 with h | h | h | h | h | h | h
    · exact Or.inr (Or.inl h)
    · exact Or.inl (Or.inr (Or.inr (Or.inl h)))
    · exact Or.inl (Or.inr (Or.inl h))
    · exact Or.inl (Or.inr (Or.inr (Or.inr (Or.inl h))))
    · exact Or.inl (Or.inr (Or.inr (Or.inr (Or.inr h))))
    · exact Or.inr (Or.inr (Or.inl h))
    · exact Or.inl (Or.inl h)

/-- The safe glob run of an escaped buffer is the safe run of the original
characters, and what follows it is the escaped remainder. -/
lemma escList_tw (cs : List Char) :
    (escList cs).takeWhile isSafeInit = cs.takeWhile isSafeInit ∧
    (escList cs).dropWhile isSafeInit = escList (cs.dropWhile isSafeInit) := by
  induction cs with
  | nil => exact ⟨rfl, rfl⟩
  | cons c rest ih =>
    rcases char_cases c with hspec | hpar | hbar | hsafe
    · have he : escList (c :: rest) = '\\' :: c :: escList rest := by
        show escChar c ++ escList rest = _
        rw [escChar_special hspec]
        rfl
      have hcu : isSafeInit c = false := specIsNotSafe hspec
      have hbs : isSafeInit '\\' = false := by decide
      constructor
      · rw [he]
        simp [List.takeWhile_cons, hbs, hcu]
      · rw [he]
        simp [List.dropWhile_cons, hbs, hcu]
        rw [he]
    · subst hpar
      have hf : isSafeInit '(' = false := by decide
      constructor
      · show List.takeWhile isSafeInit ('(' :: escList rest) = _
        simp [List.takeWhile_cons, hf]
      · show List.dropWhile isSafeInit ('(' :: escList rest) = _
        simp [List.dropWhile_cons, hf]
        rfl
    · subst hbar
      have hf : isSafeInit '|' = false := by decide
      constructor
      · show List.takeWhile isSafeInit ('|' :: escList rest) = _
        simp [List.takeWhile_cons, hf]
      · show List.dropWhile isSafeInit ('|' :: escList rest) = _
        simp [List.dropWhile_cons, hf]
        rfl
    · have he : escList (c :: rest) = c :: escList rest := by
        show escChar c ++ escList rest = _
        rw [escChar_nonspecial (safe_not_spec hsafe)]
        rfl
      constructor
      · rw [he]
        simp [List.takeWhile_cons, hsafe, ih.1]
      · rw [he]
        simp [List.dropWhile_cons, hsafe, ih.2]

/-- The escaped buffer never exposes a bare `)` after an alphabetic run, so
the filter token can never match inside it. -/
lemma escList_dropAlpha (cs : List Char) :
    (escList cs).dropWhile Char.isAlpha = [] ∨
      ∃ d r, (escList cs).dropWhile Char.isAlpha = d :: r ∧ d ≠ ')' := by
  induction cs with
  | nil => exact Or.inl rfl
  | cons c rest ih =>
    rcases char_cases c with hspec | hpar | hbar | hsafe
    · have he : escList (c :: rest) = '\\' :: c :: escList rest := by
        show escChar c ++ escList rest = _
        rw [escChar_special hspec]
        rfl
      refine Or.inr ⟨'\\', c :: escList rest, ?_, by decide⟩
      rw [he]
      simp [List.dropWhile_cons, (by decide : Char.isAlpha '\\' = false)]
    · subst hpar
      refine Or.inr ⟨'(', escList rest, ?_, by decide⟩
      show List.dropWhile Char.isAlpha ('(' :: escList rest) = _
      simp [List.dropWhile_cons, (by decide : Char.isAlpha '(' = false)]
    · subst hbar
      refine Or.inr ⟨'|', escList rest, ?_, by decide⟩
      show List.dropWhile Char.isAlpha ('|' :: escList rest) = _
      simp [List.dropWhile_cons, (by decide : Char.isAlpha '|' = false)]
    · have he : escList (c :: rest) = c :: escList rest := by
        show escChar c ++ escList rest = _
        rw [escChar_nonspecial (safe_not_spec hsafe)]
        rfl
      by_cases ha : Char.isAlpha c = true
      · rw [he]
        simp only [List.dropWhile_cons, ha, if_true]
        exact ih
      · have ha2 : Char.isAlpha c = false := by
          cases hx : Char.isAlpha c
          · rfl
          · exact absurd hx ha
        refine Or.inr ⟨c, escList rest, ?_, ?_⟩
        · rw [he]
          simp [List.dropWhile_cons, ha2]
        · intro hc
          subst hc
          exact absurd hsafe (by decide)

lemma filterMatch_escList (cs : List Char) : filterMatch (escList cs) = none := by
  rcases escList_dropAlpha cs with h | ⟨d, r, h, hd⟩
  · unfold filterMatch
    rw [h]
  · unfold filterMatch
    rw [h]
    split
    · rename_i heq
      cases heq
      exact absurd rfl hd
    · rfl

lemma lexTok_bar (t : List Char) (h : filterMatch t = none) :
    lexTok IMode.initial ('|' :: t) = some (Tok.chr '|', t) := by
  simp [lexTok, h]

/-- Running the interpolator over an escaped buffer appends the original
characters to the single accumulator: every escaped special becomes the
`Escape` token dropping the backslash, `(` and `|` fall through to the
catch-all character token, and safe runs are globbed verbatim. -/
lemma escRun (ctx : ICtx) :
    ∀ fuel cs acc, (escList cs).length ≤ fuel →
      closeRun ctx fuel IMode.initial [] [acc] (escList cs) = Except.ok [acc ++ cs] := by
  intro fuel
  induction fuel with
  | zero =>
    intro cs acc hlen
    cases cs with
    | nil => simp [escList, closeRun]
    | cons c t =>
      exfalso
      have h1 : 1 ≤ (escChar c).length := by
        unfold escChar
        split <;> simp
      have h2 : (escList (c :: t)).length = (escChar c).length + (escList t).length := by
        show (escChar c ++ escList t).length = _
        simp
      omega
  | succ fuel ih =>
    intro cs acc hlen
    cases cs with
    | nil =>
      show closeRun ctx (fuel + 1) IMode.initial [] [acc] [] = Except.ok [acc ++ []]
      rw [closeRun_nil]
      simp
    | cons c rest =>
      rcases char_cases c with hspec | hpar | hbar | hsafe
      · have he : escList (c :: rest) = '\\' :: c :: escList rest := by
          show escChar c ++ escList rest = _
          rw [escChar_special hspec]
          rfl
        rw [he] at hlen ⊢
        have hlex : lexTok IMode.initial ('\\' :: c :: escList rest)
            = some (Tok.esc c, escList rest) := rfl
        have hstep : closeRun ctx (fuel + 1) IMode.initial [] [acc] ('\\' :: c :: escList rest)
            = closeRun ctx fuel IMode.initial [] [acc ++ [escTrans c]] (escList rest) := by
          rw [closeRun, hlex]
        rw [hstep, escTrans_special hspec]
        have hlen2 : (escList rest).length ≤ fuel := by
          simp only [List.length_cons] at hlen
          omega
        rw [ih rest (acc ++ [c]) hlen2]
        simp
      · subst hpar
        have he : escList ('(' :: rest) = '(' :: escList rest := rfl
        rw [he] at hlen ⊢
        have hlex : lexTok IMode.initial ('(' :: escList rest)
            = some (Tok.chr '(', escList rest) := rfl
        have hstep : closeRun ctx (fuel + 1) IMode.initial [] [acc] ('(' :: escList rest)
            = closeRun ctx fuel IMode.initial [] [acc ++ ['(']] (escList rest) := by
          rw [closeRun, hlex]
        rw [hstep]
        have hlen2 : (escList rest).length ≤ fuel := by
          simp only [List.length_cons] at hlen
          omega
        rw [ih rest (acc ++ ['(']) hlen2]
        simp
      · subst hbar
        have he : escList ('|' :: rest) = '|' :: escList rest := rfl
        rw [he] at hlen ⊢
        have hstep : closeRun ctx (fuel + 1) IMode.initial [] [acc] ('|' :: escList rest)
            = closeRun ctx fuel IMode.initial [] [acc ++ ['|']] (escList rest) := by
          rw [closeRun, lexTok_bar (escList rest) (filterMatch_escList rest)]
        rw [hstep]
        have hlen2 : (escList rest).length ≤ fuel := by
          simp only [List.length_cons] at hlen
          omega
        rw [ih rest (acc ++ ['|']) hlen2]
        simp
      · have he : escList (c :: rest) = c :: escList rest := by
          show escChar c ++ escList rest = _
          rw [escChar_nonspecial (safe_not_spec hsafe)]
          rfl
        rw [he] at hlen ⊢
        have hne1 : ¬ c = '\\' := by
          intro h; rw [h] at hsafe; exact absurd hsafe (by decide)
        have hne2 : ¬ c = '%' := by
          intro h; rw [h] at hsafe; exact absurd hsafe (by decide)
        have hne3 : ¬ c = '|' := by
          intro h; rw [h] at hsafe; exact absurd hsafe (by decide)
        have hne4 : ¬ c = ')' := by
          intro h; rw [h] at hsafe; exact absurd hsafe (by decide)
        have hlex : lexTok IMode.initial (c :: escList rest)
            = some (Tok.glob (c :: rest.takeWhile isSafeInit),
                    escList (rest.dropWhile isSafeInit)) := by
          simp only [lexTok]
          rw [if_neg hne1, if_neg hne2, if_neg hne3, if_neg hne4, if_pos hsafe]
          rw [List.takeWhile_cons, List.dropWhile_cons, if_pos hsafe]
          rw [(escList_tw rest).1, (escList_tw rest).2]
          simp [hsafe]
        have hstep : closeRun ctx (fuel + 1) IMode.initial [] [acc] (c :: escList rest)
            = closeRun ctx fuel IMode.initial [] [acc ++ (c :: rest.takeWhile isSafeInit)]
                (escList (rest.dropWhile isSafeInit)) := by
          rw [closeRun, hlex]
        rw [hstep]
        have hrw : rest.takeWhile isSafeInit ++ rest.dropWhile isSafeInit = rest :=
          List.takeWhile_append_dropWhile isSafeInit rest
        have hlsum : (escList (rest.takeWhile isSafeInit)).length
            + (escList (rest.dropWhile isSafeInit)).length = (escList rest).length := by
          have h5 : escList (rest.takeWhile isSafeInit) ++ escList (rest.dropWhile isSafeInit)
              = escList rest := by
            rw [← escList_append, hrw]
          have h6 := congrArg List.length h5
          simp only [List.length_append] at h6
          exact h6
        have hlen2 : (escList (rest.dropWhile isSafeInit)).length ≤ fuel := by
          simp only [List.length_cons] at hlen
          omega
        rw [ih (rest.dropWhile isSafeInit) (acc ++ (c :: rest.takeWhile isSafeInit)) hlen2]
        rw [List.append_assoc]
        rw [show (c :: rest.takeWhile isSafeInit) ++ rest.dropWhile isSafeInit
          = c :: rest from by rw [List.cons_append, hrw]]

/-- All filters of the registry are known and never fail (rules out
`UnknownFilterError` and `FilterError` aborts, which are not parse
errors). -/
def TotalFilters (ctx : ICtx) : Prop :=
  ∀ n, ∃ g, ctx.filters n = some g ∧ ∀ x, ∃ y, g x = Except.ok y

lemma applyFilters_total {ctx : ICtx} (h : TotalFilters ctx) :
    ∀ ns arg, ∃ r, applyFilters ctx ns arg = Except.ok r := by
  intro ns
  induction ns with
  | nil => intro arg; exact ⟨arg, rfl⟩
  | cons n ns ih =>
    intro arg
    obtain ⟨g, hg, hgt⟩ := h n
    obtain ⟨y, hy⟩ := hgt arg
    obtain ⟨r, hr⟩ := ih y
    refine ⟨r, ?_⟩
    show (match ctx.filters n with
      | none => Except.error (IErr.unknownFilter n)
      | some f =>
        match f arg with
        | Except.error _ => Except.error IErr.filterFailed
        | Except.ok r => applyFilters ctx ns r) = Except.ok r
    simp only [hg, hy, hr]

/-- The depth erasure of the interpolator, written from the words of the
spec and of claim C4: it reads the same tokens but tracks only the number
of accumulators on the stack.  A `)` expansion close with no unmatched
open (`depth` at most one) is the unbalanced-parenthesis parse error; a `}`
literal close with no unmatched open is the unbalanced-literal parse
error; reaching the end of the input, the run is balanced exactly when one
accumulator remains.  Filter closes over too shallow a stack and state-pop
failures abort without a parse error, mirroring the source. -/
def scanStep : Nat → IMode → List IMode → Nat → List Char → Except IErr Nat
  | 0, _, _, d, _ => Except.ok d
  | fuel + 1, mode, ms, d, buf =>
    match lexTok mode buf with
    | none => Except.ok d
    | some (Tok.litEsc _, rest) =>
      match d with
      | 0 => Except.error IErr.indexError
      | d + 1 => scanStep fuel mode ms (d + 1) rest
    | some (Tok.esc _, rest) =>
      match d with
      | 0 => Except.error IErr.indexError
      | d + 1 => scanStep fuel mode ms (d + 1) rest
    | some (Tok.endLit, rest) =>
      match d with
      | 0 => Except.error IErr.unbalancedLiteral
      | 1 => Except.error IErr.unbalancedLiteral
      | d + 2 =>
        match ms with
        | m :: ms2 => scanStep fuel m ms2 (d + 1) rest
        | [] => Except.error IErr.popFailed
    | some (Tok.litGlob _, rest) =>
      match d with
      | 0 => Except.error IErr.indexError
      | d + 1 => scanStep fuel mode ms (d + 1) rest
    | some (Tok.startLit, rest) => scanStep fuel IMode.literal (mode :: ms) (d + 1) rest
    | some (Tok.startExpr, rest) => scanStep fuel mode ms (d + 1) rest
    | some (Tok.filterTok _, rest) =>
      match d with
      | 0 => Except.error IErr.indexError
      | 1 => Except.error IErr.indexError
      | d + 2 => scanStep fuel mode ms (d + 1) rest
    | some (Tok.closeExpr, rest) =>
      match d with
      | 0 => Except.error IErr.unbalancedParen
      | 1 => Except.error IErr.unbalancedParen
      | d + 2 => scanStep fuel mode ms (d + 1) rest
    | some (Tok.glob _, rest) =>
      match d with
      | 0 => Except.error IErr.indexError
      | d + 1 => scanStep fuel mode ms (d + 1) rest
    | some (Tok.chr _, rest) =>
      match d with
      | 0 => Except.error IErr.indexError
      | d + 1 => scanStep fuel mode ms (d + 1) rest

/-- The claim-side condition of C4: evaluation of `s` hits an unmatched
close, or finishes with more than one accumulator on the stack. -/
def unbalancedSpec (s : String) : Bool :=
  match scanStep s.data.length IMode.initial [] 1 s.data with
  | Except.ok d => decide (d ≠ 1)
  | Except.error e => isParseErrB e

/-- The depth erasure is exact: when every filter is known and total, the
scan of the depths is the image of the interpolator run under
`List.length`. -/
lemma scanSim (ctx : ICtx) (hT : TotalFilters ctx) :
    ∀ fuel mode ms st buf,
      scanStep fuel mode ms st.length buf
        = Except.map List.length (closeRun ctx fuel mode ms st buf) := by
  intro fuel
  induction fuel with
  | zero => intro mode ms st buf; rfl
  | succ fuel ih =>
    intro mode ms st buf
    rw [scanStep, closeRun]
    cases hlex : lexTok mode buf with
    | none => rfl
    | some tr =>
      obtain ⟨tok, rest⟩ := tr
      cases tok with
      | litEsc c =>
        cases st with
        | nil => rfl
        | cons top s => simpa using ih mode ms ((top ++ ['\\', c]) :: s) rest
      | esc c =>
        cases st with
        | nil => rfl
        | cons top s => simpa using ih mode ms ((top ++ [escTrans c]) :: s) rest
      | endLit =>
        cases st with
        | nil => rfl
        | cons top s =>
          cases s with
          | nil => rfl
          | cons parent s2 =>
            cases ms with
            | nil => rfl
            | cons m ms2 => simpa using ih m ms2 ((parent ++ top) :: s2) rest
      | litGlob cs =>
        cases st with
        | nil => rfl
        | cons top s => simpa using ih mode ms ((top ++ cs) :: s) rest
      | startLit =>
        simpa using ih IMode.literal (mode :: ms) ([] :: st) rest
      | startExpr =>
        simpa using ih mode ms ([] :: st) rest
      | filterTok name =>
        cases st with
        | nil => rfl
        | cons top s =>
          obtain ⟨r, hr⟩ := applyFilters_total hT (name.splitOn ",") (String.mk top)
          cases s with
          | nil =>
            show Except.error IErr.indexError
              = Except.map List.length
                  (match applyFilters ctx (name.splitOn ",") (String.mk top) with
                   | Except.error e => Except.error e
                   | Except.ok arg =>
                     match ([] : List (List Char)) with
                     | [] => Except.error IErr.indexError
                     | parent :: s2 =>
                       closeRun ctx fuel mode ms ((parent ++ arg.data) :: s2) rest)
            rw [hr]
            rfl
          | cons parent s2 =>
            show scanStep fuel mode ms (s2.length + 1) rest
              = Except.map List.length
                  (match applyFilters ctx (name.splitOn ",") (String.mk top) with
                   | Except.error e => Except.error e
                   | Except.ok arg =>
                     closeRun ctx fuel mode ms ((parent ++ arg.data) :: s2) rest)
            rw [hr]
            simpa using ih mode ms ((parent ++ r.data) :: s2) rest
      | closeExpr =>
        cases st with
        | nil => rfl
        | cons top s =>
          cases s with
          | nil => rfl
          | cons parent s2 =>
            simpa using ih mode ms
              ((parent ++ (ctx.render (qualifyName ctx.defaultSection (String.mk top))
                ((ctx.cfg (qualifyName ctx.defaultSection (String.mk top))).getD "")).data)
                :: s2) rest
      | glob cs =>
        cases st with
        | nil => rfl
        | cons top s => simpa using ih mode ms ((top ++ cs) :: s) rest
      | chr c =>
        cases st with
        | nil => rfl
        | cons top s => simpa using ih mode ms ((top ++ [c]) :: s) rest

/-- An interpolation context whose filter registry is everywhere the
identity filter, hence total. -/
def totalCtx : ICtx :=
  ⟨fun _ => none, fun _ v => v, fun _ => some (fun x => Except.ok x), ""⟩

/-! Claim theorems. -/

/-- Claim C1, counterexample: `EscapeString` leaves `(` unchanged, so it
does not prefix a backslash to every occurrence of `(` as the claim
states. -/
theorem c1_escape_counterexample :
    EscapeString "(" = "(" ∧ ("(" : String) ≠ "\\(" := by
  constructor
  · rfl
  · decide

/-- Claim C1 (amended): `EscapeString` prefixes a single backslash to every
occurrence of each of the characters `\`, `%`, `)`, `{`, `}`, leaves all
other characters - including `(` - unchanged, and `Set` stores the
`ToString`-serialized value escaped this way into the raw data. -/
theorem c1_escape_set_amended :
    (∀ c : Char, (c = '\\' ∨ c = '%' ∨ c = ')' ∨ c = '{' ∨ c = '}') →
        EscapeString (String.mk [c]) = String.mk ['\\', c]) ∧
    (∀ c : Char, ¬(c = '\\' ∨ c = '%' ∨ c = ')' ∨ c = '{' ∨ c = '}') →
        EscapeString (String.mk [c]) = String.mk [c]) ∧
    (∀ a b : String, EscapeString (a ++ b) = EscapeString a ++ EscapeString b) ∧
    (∀ (V : Type) (ts : Option V → String) (val : V → Bool) (st : RawState)
        (name sec key : String) (v : V),
      splitName name = some (sec, key) → lowerStr sec ≠ "environment" → val v = true →
      ∃ st', setCfg ts val st name (some v) true = Except.ok st' ∧
        st'.raw sec key = some (EscapeString (ts (some v)))) := by
  refine ⟨?_, ?_, ?_, ?_⟩
  · intro c h
    show String.mk (escList [c]) = _
    unfold escList escList escChar
    rw [if_pos h]
    rfl
  · intro c h
    show String.mk (escList [c]) = _
    unfold escList escList escChar
    rw [if_neg h]
    rfl
  · intro a b
    show String.mk (escList (a.data ++ b.data)) = _
    rw [escList_append]
    rfl
  · intro V ts val st name sec key v hsplit henv hval
    have hset : setCfg ts val st name (some v) true =
        Except.ok ⟨updRaw st.raw sec key (some (EscapeString (ts (some v))))⟩ := by
      unfold setCfg
      rw [hsplit]
      simp [henv, hval]
    exact ⟨_, hset, by simp [updRaw]⟩

/-- Claim C1, witness for the amended theorem. -/
theorem c1_witness :
    splitName "Sec.k" = some ("Sec", "k") ∧ lowerStr "Sec" ≠ "environment" ∧
    (∃ st', setCfg (fun o : Option String => o.getD "None") (fun _ => true)
        (⟨fun _ _ => none⟩ : RawState) "Sec.k" (some "x") true = Except.ok st' ∧
      st'.raw "Sec" "k"
        = some (EscapeString ((fun o : Option String => o.getD "None") (some "x")))) :=
  ⟨by decide, by decide,
    c1_escape_set_amended.2.2.2 String (fun o => o.getD "None") (fun _ => true)
      ⟨fun _ _ => none⟩ "Sec.k" "Sec" "k" "x" (by decide) (by decide) rfl⟩

/-- Claim C2: contrary to the claim, `Set(name, None)` does not leave the
key deleted: the source pops the key but then falls through (there is no
`return`) and re-stores `EscapeString(ToString(None))` under the same key,
so after the call the key is present in the raw data for every total
`ToString` codec. -/
theorem c2_set_none_code_bug {V : Type} (ts : Option V → String) (val : V → Bool)
    (st : RawState) :
    (setCfg ts val st "Section.key" none true).isOk = true ∧
    ∀ st', setCfg ts val st "Section.key" none true = Except.ok st' →
      st'.raw "Section" "key" = some (EscapeString (ts none)) := by
  have h : setCfg ts val st "Section.key" none true =
      Except.ok ⟨updRaw (updRaw st.raw "Section" "key" none) "Section" "key"
        (some (EscapeString (ts none)))⟩ := rfl
  constructor
  · rw [h]; rfl
  · intro st' hst
    rw [h] at hst
    cases hst
    simp [updRaw]

/-- Claim C2, witness: with the spec's `ToString` rendering `None` as the
string `None`, the deleted key re-appears bound to `"None"`. -/
theorem c2_witness :
    ∃ st', setCfg (fun o : Option String => o.getD "None") (fun _ => true)
        (⟨fun _ _ => none⟩ : RawState) "Section.key" none true = Except.ok st' ∧
      st'.raw "Section" "key" = some "None" := by
  have h := @c2_set_none_code_bug String (fun o => o.getD "None") (fun _ => true)
    ⟨fun _ _ => none⟩
  refine ⟨⟨updRaw (updRaw (fun _ _ => none) "Section" "key" none) "Section" "key"
    (some (EscapeString "None"))⟩, rfl, ?_⟩
  have h2 := h.2 _ rfl
  exact h2.trans (by decide)

/-- Claim C3: `_GetValue` returns the first value found in the order
raw data, environment, defaults; when all three are absent and the key does
not start with `@` it recurses through the section named by
`@inherit_from_section` and returns that lookup's result; for keys starting
with `@` inheritance is never followed. -/
theorem c3_layered_lookup (L : Layers) (fuel : Nat) (s k : String) :
    (∀ v, L.raw s k = some v → getValue L (fuel + 1) s k = some v) ∧
    (∀ v, L.raw s k = none → L.env s k = some v → getValue L (fuel + 1) s k = some v) ∧
    (∀ v, L.raw s k = none → L.env s k = none → L.defaults s k = some v →
      getValue L (fuel + 1) s k = some v) ∧
    (L.raw s k = none → L.env s k = none → L.defaults s k = none → hasPre "@" k = false →
      getValue L (fuel + 1) s k
        = (match getValue L fuel s "@inherit_from_section" with
           | some sec => getValue L fuel sec k
           | none => none)) ∧
    (L.raw s k = none → L.env s k = none → L.defaults s k = none → hasPre "@" k = true →
      getValue L (fuel + 1) s k = none) := by
  refine ⟨?_, ?_, ?_, ?_, ?_⟩
  · intro v h; simp [getValue, h]
  · intro v h1 h2; simp [getValue, h1, h2]
  · intro v h1 h2 h3; simp [getValue, h1, h2, h3]
  · intro h1 h2 h3 h4; simp [getValue, h1, h2, h3, h4]
  · intro h1 h2 h3 h4; simp [getValue, h1, h2, h3, h4]

/-- Inheritance example: section `A` inherits from `B` (declared in the
defaults layer) and `B.key` is set in the raw layer. -/
def inheritLayers : Layers :=
  ⟨fun s k => if s = "B" ∧ k = "key" then some "v" else none,
   fun _ _ => none,
   fun s k => if s = "A" ∧ k = "@inherit_from_section" then some "B" else none⟩

/-- Claim C3, witness: looking up `A.key` falls through all three layers
and resolves through the inherited section `B`. -/
theorem c3_witness :
    inheritLayers.raw "A" "key" = none ∧
    getValue inheritLayers 2 "A" "key" = some "v" := by
  constructor
  · rfl
  · have h := (c3_layered_lookup inheritLayers 1 "A" "key").2.2.2.1
      rfl rfl (by decide) (by decide)
    rw [h]
    decide

/-- Claim C5: the `file` filter returns at most the first 1,048,576 bytes
of the file content (in fact exactly the first 1,024,000 bytes, which is a
prefix of the first 1,048,576), and fails with `FilterError` exactly when
the read fails with an I/O error. -/
theorem c5_file_filter_cap {α : Type} (fs : String → Option (List α)) (data : String) :
    (∀ content, fs data = some content →
      fileFilter fs data = Except.ok (content.take 1024000) ∧
        content.take 1024000 <+: content.take 1048576) ∧
    (fs data = none → fileFilter fs data = Except.error ()) := by
  constructor
  · intro content h
    refine ⟨by simp [fileFilter, h], ?_⟩
    have h2 : (content.take 1048576).take 1024000 = content.take 1024000 := by
      rw [List.take_take]
      norm_num
    rw [← h2]
    exact List.take_prefix _ _
  · intro h
    simp [fileFilter, h]

/-- Claim C5, witness. -/
theorem c5_witness :
    (fun p : String => if p = "f" then some ([1, 2, 3] : List Nat) else none) "f"
      = some [1, 2, 3] ∧
    fileFilter (fun p : String => if p = "f" then some ([1, 2, 3] : List Nat) else none) "f"
      = Except.ok (([1, 2, 3] : List Nat).take 1024000) ∧
    ([1, 2, 3] : List Nat).take 1024000 <+: ([1, 2, 3] : List Nat).take 1048576 ∧
    fileFilter (fun p : String => if p = "f" then some ([1, 2, 3] : List Nat) else none) "g"
      = Except.error () := by
  have h := @c5_file_filter_cap Nat
    (fun p : String => if p = "f" then some ([1, 2, 3] : List Nat) else none) "f"
  have h1 := h.1 [1, 2, 3] (by decide)
  have h2 := (@c5_file_filter_cap Nat
    (fun p : String => if p = "f" then some ([1, 2, 3] : List Nat) else none) "g").2 (by decide)
  exact ⟨by decide, h1.1, h1.2, h2⟩

/-- Claim C6: inside a literal region the source does take content
verbatim with no sub-expansion (`%{a%(b)c}` gives `a%(b)c`), but the
claimed `\}` escape is broken away from the start of the region: on
`%{a\}b}` the literal glob token `[^}]+` consumes the backslash as
ordinary content, the region ends at the first `}`, and the run yields
`a\b}` instead of the documented `a}b`. -/
theorem c6_literal_escape_code_bug :
    InterpParse plainCtx "%\x7ba\\\x7db\x7d" = Except.ok "a\\b\x7d" ∧
    ("a\\b\x7d" : String) ≠ "a\x7db" ∧
    InterpParse plainCtx "%\x7ba%(b)c\x7d" = Except.ok "a%(b)c" := by
  refine ⟨rfl, by decide, rfl⟩

/-- Claim C7: an expansion region that closes without a filter suffix over
a parameter with no stored value in any layer resolves to the empty string
and the evaluation succeeds. -/
theorem c7_missing_param_empty (ctx : ICtx) (p : String)
    (hne : p.data ≠ [])
    (hsafe : ∀ c ∈ p.data, isSafeInit c = true)
    (hcfg : ctx.cfg (qualifyName ctx.defaultSection p) = none)
    (hren : ctx.render (qualifyName ctx.defaultSection p) "" = "") :
    InterpParse ctx ("%(" ++ p ++ ")") = Except.ok "" := by
  obtain ⟨c, cs, hd⟩ : ∃ c cs, p.data = c :: cs := by
    cases hp : p.data with
    | nil => exact absurd hp hne
    | cons c cs => exact ⟨c, cs, rfl⟩
  have hdata : ("%(" ++ p ++ ")").data = '%' :: '(' :: (p.data ++ [')']) := rfl
  have hc : isSafeInit c = true := hsafe c (by rw [hd]; simp)
  have hcs : ∀ x ∈ c :: cs, isSafeInit x = true := by rw [← hd]; exact hsafe
  have hsplit := takeWhile_all_append (p := isSafeInit) (c :: cs) ')' [] hcs (by decide)
  have hsp1 : List.takeWhile isSafeInit (c :: (cs ++ [')'])) = c :: cs := hsplit.1
  have hsp2 : List.dropWhile isSafeInit (c :: (cs ++ [')'])) = [')'] := hsplit.2
  have h1 : lexTok IMode.initial (p.data ++ [')'])
      = some (Tok.glob p.data, [')']) := by
    rw [hd]
    have hne1 : ¬ c = '\\' := by
      intro h; rw [h] at hc; exact absurd hc (by decide)
    have hne2 : ¬ c = '%' := by
      intro h; rw [h] at hc; exact absurd hc (by decide)
    have hne3 : ¬ c = '|' := by
      intro h; rw [h] at hc; exact absurd hc (by decide)
    have hne4 : ¬ c = ')' := by
      intro h; rw [h] at hc; exact absurd hc (by decide)
    show lexTok IMode.initial (c :: (cs ++ [')'])) = _
    simp only [lexTok]
    rw [if_neg hne1, if_neg hne2, if_neg hne3, if_neg hne4, if_pos hc, hsp1, hsp2]
  have hmk : String.mk p.data = p := rfl
  have h0 : lexTok IMode.initial ('%' :: '(' :: (p.data ++ [')']))
      = some (Tok.startExpr, p.data ++ [')']) := rfl
  have e1 : closeRun ctx (p.data.length + 3) IMode.initial [] [[]]
        ('%' :: '(' :: (p.data ++ [')']))
      = closeRun ctx (p.data.length + 2) IMode.initial [] [[], []] (p.data ++ [')']) := by
    show closeRun ctx ((p.data.length + 2) + 1) IMode.initial [] [[]]
        ('%' :: '(' :: (p.data ++ [')'])) = _
    rw [closeRun, h0]
  have e2 : closeRun ctx (p.data.length + 2) IMode.initial [] [[], []] (p.data ++ [')'])
      = closeRun ctx (p.data.length + 1) IMode.initial [] [p.data, []] [')'] := by
    show closeRun ctx ((p.data.length + 1) + 1) IMode.initial [] [[], []]
        (p.data ++ [')']) = _
    rw [closeRun, h1]
    rfl
  have e3 : closeRun ctx (p.data.length + 1) IMode.initial [] [p.data, []] [')']
      = closeRun ctx p.data.length IMode.initial [] [[]] [] := by
    rw [closeRun]
    show closeRun ctx p.data.length IMode.initial []
        [[] ++ (ctx.render (qualifyName ctx.defaultSection (String.mk p.data))
          ((ctx.cfg (qualifyName ctx.defaultSection (String.mk p.data))).getD "")).data] []
      = _
    rw [hmk, hcfg]
    show closeRun ctx p.data.length IMode.initial []
        [[] ++ (ctx.render (qualifyName ctx.defaultSection p) "").data] [] = _
    rw [hren]
    rfl
  have hlen : ('%' :: '(' :: (p.data ++ [')'])).length = p.data.length + 3 := by
    simp
  have hrun : closeRun ctx ("%(" ++ p ++ ")").data.length IMode.initial [] [[]]
      (("%(" ++ p ++ ")").data) = Except.ok [[]] := by
    rw [hdata, hlen, e1, e2, e3, closeRun_nil]
  unfold InterpParse
  rw [hrun]

/-- Claim C7, witness: `%(b)` with `b` missing everywhere gives the empty
string. -/
theorem c7_witness :
    ("b" : String).data ≠ [] ∧
    InterpParse plainCtx "%(b)" = Except.ok "" :=
  ⟨by decide,
    c7_missing_param_empty plainCtx "b" (by decide) (by decide) rfl rfl⟩

/-- Claim C8: `MergeData` merges per section and per key: a key bound by
the incoming data takes its last incoming value (so across two loads the
second source wins), and a key the incoming data never binds keeps its
previous value - sections are never wholly replaced. -/
theorem c8_merge_last_write_wins (m : RawMap)
    (inc : List (String × List (String × String))) (s k : String) :
    (∀ v, lastBinding inc s k = some v → MergeData m inc s k = some v) ∧
    (lastBinding inc s k = none → MergeData m inc s k = m s k) ∧
    (∀ d2 v, lastBinding d2 s k = some v →
      MergeData (MergeData m inc) d2 s k = some v) := by
  refine ⟨?_, ?_, ?_⟩
  · intro v h
    rw [mergeData_apply, h]
  · intro h
    rw [mergeData_apply, h]
  · intro d2 v h
    rw [mergeData_apply, h]

/-- Claim C8, witness: loading `Sec.k = v1` then `Sec.k = v2` leaves `v2`,
and a key absent from the incoming data is untouched. -/
theorem c8_witness :
    lastBinding [("Sec", [("k", "v2")])] "Sec" "k" = some "v2" ∧
    MergeData (MergeData (fun _ _ => none) [("Sec", [("k", "v1")])])
        [("Sec", [("k", "v2")])] "Sec" "k" = some "v2" ∧
    lastBinding [("Sec", [("k", "v1")])] "Sec" "other" = none ∧
    MergeData (fun _ _ => none) [("Sec", [("k", "v1")])] "Sec" "other" = none := by
  refine ⟨by decide, ?_, by decide, ?_⟩
  · exact (c8_merge_last_write_wins (fun _ _ => none) [("Sec", [("k", "v1")])]
      "Sec" "k").2.2 [("Sec", [("k", "v2")])] "v2" (by decide)
  · exact (c8_merge_last_write_wins (fun _ _ => none) [("Sec", [("k", "v1")])]
      "Sec" "other").2.1 (by decide)

/-- Claim C9: interpolation-evaluating `EscapeString s` yields `s` back,
for every string `s` (with or without embedded expression syntax) and
every interpolation context: the escape-then-evaluate round-trip is the
identity. -/
theorem c9_escape_roundtrip (ctx : ICtx) (s : String) :
    InterpParse ctx (EscapeString s) = Except.ok s := by
  have hdata : (EscapeString s).data = escList s.data := rfl
  have hrun := escRun ctx (escList s.data).length s.data [] (le_refl _)
  unfold InterpParse
  rw [hdata, hrun]
  rfl

/-- Claim C4: with every filter known and total, an interpolation run
fails with a `lexer.ParseError` (surfaced by `Get` as `ConfigFormatError`)
exactly when a `)` expansion close is read with no unmatched `%(` open,
when a `}` closes a literal with no unmatched `%{` open, or when more than
one accumulator remains on the stack at end of input - the condition
computed by `unbalancedSpec` from the claim's words. -/
theorem c4_parse_error_iff (ctx : ICtx) (hT : TotalFilters ctx) (s : String) :
    isLexParseErr (InterpParse ctx s) = unbalancedSpec s := by
  have hsim := scanSim ctx hT s.data.length IMode.initial [] [[]] s.data
  rw [show ([([] : List Char)]).length = 1 from rfl] at hsim
  unfold InterpParse unbalancedSpec
  rw [hsim]
  cases hcr : closeRun ctx s.data.length IMode.initial [] [[]] s.data with
  | error e => cases e <;> rfl
  | ok st =>
    cases st with
    | nil => rfl
    | cons a t =>
      cases t with
      | nil => rfl
      | cons b t2 =>
        show isLexParseErr (Except.error IErr.nestedNotBalanced)
          = decide ((t2.length + 1 + 1 : Nat) ≠ 1)
        have : ((t2.length + 1 + 1 : Nat) ≠ 1) := by omega
        simp [isLexParseErr, isParseErrB, this]

/-- Claim C4, witness: under the total identity registry, `%(abc` and a
bare `)` are parse errors while the balanced `%(b)` is not. -/
theorem c4_witness :
    TotalFilters totalCtx ∧
    isLexParseErr (InterpParse totalCtx "%(abc") = unbalancedSpec "%(abc" ∧
    unbalancedSpec "%(abc" = true ∧
    isLexParseErr (InterpParse totalCtx ")") = unbalancedSpec ")" ∧
    unbalancedSpec ")" = true ∧
    unbalancedSpec "%(b)" = false := by
  have hT : TotalFilters totalCtx :=
    fun n => ⟨fun x => Except.ok x, rfl, fun x => ⟨x, rfl⟩⟩
  exact ⟨hT, c4_parse_error_iff totalCtx hT "%(abc", by decide,
    c4_parse_error_iff totalCtx hT ")", by decide, by decide⟩

/-- Claim C10: when `environ` is true and the full name is a flat key of
the environment, `Get` returns the stored environment value as is - for
every interpolation, parsing and validation behaviour, and for either value
of `verify`. -/
theorem c10_env_short_circuit {V : Type} (G : GetModel V) (name : String) (v : V)
    (verify : Bool) (h : G.envFlat name = some v) :
    getCfg G name verify true = Except.ok v := by
  simp [getCfg, h]

/-- Environment-hit example whose interpolation always fails and whose
validation always rejects: neither is ever consulted. -/
def envHitModel : GetModel String :=
  ⟨fun n => if n = "Environment.x" then some "stored" else none,
   ⟨fun _ _ => none, fun _ _ => none, fun _ _ => none⟩,
   0,
   fun _ _ => Except.error GetErr.interpError,
   fun _ _ _ => false⟩

/-- Claim C10, witness. -/
theorem c10_witness :
    envHitModel.envFlat "Environment.x" = some "stored" ∧
    getCfg envHitModel "Environment.x" true true = Except.ok "stored" :=
  ⟨rfl, c10_env_short_circuit envHitModel "Environment.x" "stored" true rfl⟩

end Grr
